import Mathlib

/-!
Shallow embedding of `perceptual_dedup.py`: the average-hash fingerprint
extractor, the Hamming distance metric, and the first-match duplicate
classification loop, together with the stream orchestration that skips
failing items.

Modelling boundary: image decoding, grayscale conversion and the
Lanczos resample are performed by the external Pillow collaborator; the
embedding receives the row-major list of grayscale intensities of the
`hash_size x hash_size` resample, exactly the `pixels` list of line 30 of
the source.  Python's true division `sum(pixels) / len(pixels)` is
modelled by exact rational division: for integer operands the float
comparison `pixel >= avg` agrees with the rational one whenever
`len(pixels) < 2^40`, far above any realistic grid size, because the two
sides can only be closer than `1/len(pixels)` when they are exactly equal
and then `sum/len` is an exact small integer.
-/

namespace PerceptualDedup

/-- `HASH_SIZE` from line 12 of the source: side length of the hash grid. -/
def HASH_SIZE : Nat := 8

/-- `HASH_DIFF_THRESHOLD` from line 13 of the source. -/
def HASH_DIFF_THRESHOLD : Nat := 5

/-- A fingerprint is the Python list of bits (integers 0 or 1) returned by
`average_hash`. -/
abbrev Fingerprint := List Nat

/-- Lines 29-34 of the source (`average_hash`), applied to the pixel list
produced by the external grayscale resample: `avg = sum(pixels) / len(pixels)`
(true division, modelled exactly in `ℚ`), then one bit per pixel in
row-major order, `1 if pixel >= avg else 0`. -/
def average_hash (pixels : List Nat) : Fingerprint :=
  pixels.map (fun (pixel : Nat) =>
    if ((pixels.sum : ℚ) / (pixels.length : ℚ)) ≤ (pixel : ℚ) then 1 else 0)

/-- Line 41 of the source: `sum(el1 != el2 for el1, el2 in zip(hash1, hash2))`.
Python's `zip` truncates to the shorter list, so this is total also on
lists of different lengths. -/
def hamming_distance (hash1 hash2 : Fingerprint) : Nat :=
  (hash1.zip hash2).countP (fun p => p.1 != p.2)

/-- The per-item outcome of the run (the spec's Verdict).  In the source a
duplicate's representative is the entry of `unique_filepaths` parallel to
the matching entry of `unique_hashes` at which the scan of lines 143-146
breaks; identifiers are modelled as natural numbers. -/
inductive Verdict where
  | unique : Verdict
  | duplicateOf (rep : Nat) : Verdict
  | skipped (reason : String) : Verdict
deriving DecidableEq, Repr

/-- One input item as the classification loop sees it: either the decoded,
grayscale-resampled pixel grid of the image together with its identifier, or
a per-item failure (corrupt / unreadable / oversize image, the `continue`
paths of lines 124-139 of the source). -/
inductive ImageRecord where
  | ok (ident : Nat) (pixels : List Nat) : ImageRecord
  | failed (ident : Nat) (reason : String) : ImageRecord
deriving DecidableEq, Repr

/-- Lines 143-146 of the source: scan the accepted set (the parallel lists
`unique_hashes` / `unique_filepaths`, modelled as one list of pairs) in
insertion order and break at the first stored hash within the threshold,
yielding that member's representative identifier. -/
def firstMatch (T : Nat) (fp : Fingerprint) :
    List (Fingerprint × Nat) → Option Nat
  | [] => none
  | (uhash, rep) :: rest =>
    if hamming_distance fp uhash ≤ T then some rep else firstMatch T fp rest

/-- Lines 141-151 of the source: one classification step.  If some stored
hash is within the threshold the item is a duplicate and the accepted set is
unchanged; otherwise the (fingerprint, identifier) pair is appended and the
item is unique. -/
def classify (T : Nat) (accepted : List (Fingerprint × Nat))
    (fp : Fingerprint) (newId : Nat) : Verdict × List (Fingerprint × Nat) :=
  match firstMatch T fp accepted with
  | some rep => (Verdict.duplicateOf rep, accepted)
  | none => (Verdict.unique, accepted ++ [(fp, newId)])

/-- The classification loop applied to a stream of already-extracted
fingerprints, returning the verdict sequence and the final accepted set. -/
def classifyAll (T : Nat) (accepted : List (Fingerprint × Nat)) :
    List (Nat × Fingerprint) → List Verdict × List (Fingerprint × Nat)
  | [] => ([], accepted)
  | (ident, fp) :: rest =>
    ((classify T accepted fp ident).1 ::
       (classifyAll T (classify T accepted fp ident).2 rest).1,
     (classifyAll T (classify T accepted fp ident).2 rest).2)

/-- Lines 121-151 of the source: the per-item loop.  A failing item is
skipped (`continue`) without touching the accepted set; a decoded item is
hashed by `average_hash` and classified. -/
def processStream (T : Nat) (accepted : List (Fingerprint × Nat)) :
    List ImageRecord → List Verdict × List (Fingerprint × Nat)
  | [] => ([], accepted)
  | ImageRecord.failed _ reason :: rest =>
    ((Verdict.skipped reason) :: (processStream T accepted rest).1,
     (processStream T accepted rest).2)
  | ImageRecord.ok ident pixels :: rest =>
    ((classify T accepted (average_hash pixels) ident).1 ::
       (processStream T (classify T accepted (average_hash pixels) ident).2 rest).1,
     (processStream T (classify T accepted (average_hash pixels) ident).2 rest).2)

/- ### Basic lemmas about the distance metric -/

theorem hamming_distance_comm (a b : Fingerprint) :
    hamming_distance a b = hamming_distance b a := by
  induction a generalizing b with
  | nil => cases b <;> simp [hamming_distance]
  | cons x a ih =>
    cases b with
    | nil => simp [hamming_distance]
    | cons y b =>
      simp only [hamming_distance, List.zip_cons_cons, List.countP_cons] at *
      rw [ih b]
      congr 1
      by_cases h : x = y
      · simp [h]
      · simp [h, Ne.symm h]

theorem hamming_distance_self (a : Fingerprint) : hamming_distance a a = 0 := by
  induction a with
  | nil => simp [hamming_distance]
  | cons x a ih =>
    simp only [hamming_distance, List.zip_cons_cons, List.countP_cons] at *
    simp [ih]

theorem hamming_distance_eq_zero_iff (a b : Fingerprint)
    (h : a.length = b.length) : hamming_distance a b = 0 ↔ a = b := by
  induction a generalizing b with
  | nil =>
    cases b with
    | nil => simp [hamming_distance]
    | cons y b => simp at h
  | cons x a ih =>
    cases b with
    | nil => simp at h
    | cons y b =>
      simp only [List.length_cons, Nat.add_right_cancel_iff] at h
      simp only [hamming_distance, List.zip_cons_cons, List.countP_cons] at *
      constructor
      · intro hz
        have h1 : (a.zip b).countP (fun p => p.1 != p.2) = 0 := by omega
        have h2 : (if (x != y) = true then 1 else 0) = 0 := by omega
        have hxy : x = y := by
          by_cases hc : x = y
          · exact hc
          · simp [hc] at h2
        rw [hxy, (ih b h).mp h1]
      · intro he
        rw [List.cons.injEq] at he
        rw [(ih b h).mpr he.2, he.1]
        simp

theorem hamming_distance_le_length (a b : Fingerprint) :
    hamming_distance a b ≤ a.length := by
  calc hamming_distance a b ≤ (a.zip b).length := List.countP_le_length _
    _ ≤ a.length := by rw [List.length_zip]; exact Nat.min_le_left _ _

theorem hamming_distance_count_positions (a b : Fingerprint)
    (h : a.length = b.length) :
    hamming_distance a b
      = (List.range a.length).countP (fun i => a.get? i != b.get? i) := by
  induction a generalizing b with
  | nil => simp [hamming_distance]
  | cons x a ih =>
    cases b with
    | nil => simp at h
    | cons y b =>
      simp only [List.length_cons, Nat.add_right_cancel_iff] at h
      simp only [hamming_distance, List.zip_cons_cons, List.countP_cons,
        List.length_cons] at *
      rw [List.range_succ_eq_map, List.countP_cons, List.countP_map, ih b h]
      congr 1

theorem hamming_distance_append_right (a b extra : Fingerprint)
    (h : a.length ≤ b.length) :
    hamming_distance a (b ++ extra) = hamming_distance a b := by
  induction a generalizing b with
  | nil => simp [hamming_distance]
  | cons x a ih =>
    cases b with
    | nil => simp at h
    | cons y b =>
      simp only [List.length_cons, Nat.add_le_add_iff_right] at h
      simp only [hamming_distance, List.cons_append, List.zip_cons_cons,
        List.countP_cons] at *
      rw [ih b h]

/- ### Lemmas about the extractor -/

theorem mean_le_pixel_iff (S L p : Nat) (hL : 0 < L) :
    ((S : ℚ) / (L : ℚ) ≤ (p : ℚ)) ↔ S ≤ p * L := by
  rw [div_le_iff₀ (by exact_mod_cast hL)]
  exact_mod_cast Iff.rfl

theorem average_hash_length (pixels : List Nat) :
    (average_hash pixels).length = pixels.length := by
  simp [average_hash]

theorem average_hash_replicate (n c : Nat) (hn : 0 < n) :
    average_hash (List.replicate n c) = List.replicate n 1 := by
  unfold average_hash
  rw [List.map_replicate]
  congr 1
  rw [List.sum_replicate, List.length_replicate, smul_eq_mul]
  have hc : ((n * c : Nat) : ℚ) / (n : ℚ) = (c : ℚ) := by
    rw [Nat.cast_mul]
    exact mul_div_cancel_left₀ _ (by exact_mod_cast hn.ne')
  rw [hc, if_pos le_rfl]

/- ### Lemmas about the classification loop -/

theorem firstMatch_eq_none_iff (T : Nat) (fp : Fingerprint)
    (accepted : List (Fingerprint × Nat)) :
    firstMatch T fp accepted = none
      ↔ ∀ m ∈ accepted, T < hamming_distance fp m.1 := by
  induction accepted with
  | nil => simp [firstMatch]
  | cons m rest ih =>
    obtain ⟨uhash, rep⟩ := m
    by_cases hc : hamming_distance fp uhash ≤ T
    · simp only [firstMatch, if_pos hc]
      constructor
      · intro hcontra; cases hcontra
      · intro hall
        have h1 : T < hamming_distance fp uhash :=
          hall (uhash, rep) (List.mem_cons_self _ _)
        omega
    · simp only [firstMatch, if_neg hc, ih]
      constructor
      · intro hall m hm
        rcases List.mem_cons.mp hm with he | hmem
        · rw [he]
          show T < hamming_distance fp uhash
          omega
        · exact hall m hmem
      · intro hall m hm
        exact hall m (List.mem_cons_of_mem _ hm)

theorem firstMatch_first_hit (T : Nat) (fp : Fingerprint)
    (pre post : List (Fingerprint × Nat)) (m : Fingerprint × Nat)
    (hpre : ∀ p ∈ pre, T < hamming_distance fp p.1)
    (hm : hamming_distance fp m.1 ≤ T) :
    firstMatch T fp (pre ++ m :: post) = some m.2 := by
  induction pre with
  | nil =>
    obtain ⟨uhash, rep⟩ := m
    simp only [List.nil_append, firstMatch]
    exact if_pos hm
  | cons p pre ih =>
    obtain ⟨uhash, rep⟩ := p
    have hp := hpre (uhash, rep) (List.mem_cons_self _ _)
    simp only [List.cons_append, firstMatch]
    rw [if_neg (by simpa using Nat.not_le.mpr hp)]
    exact ih (fun q hq => hpre q (List.mem_cons_of_mem _ hq))

/- ### Lemmas about the orchestration loop -/

theorem processStream_append (T : Nat) (acc : List (Fingerprint × Nat))
    (xs ys : List ImageRecord) :
    processStream T acc (xs ++ ys)
      = ((processStream T acc xs).1
           ++ (processStream T (processStream T acc xs).2 ys).1,
         (processStream T (processStream T acc xs).2 ys).2) := by
  induction xs generalizing acc with
  | nil => simp [processStream]
  | cons x xs ih =>
    cases x with
    | ok ident pixels => simp [processStream, ih]
    | failed ident reason => simp [processStream, ih]

theorem processStream_length (T : Nat) (acc : List (Fingerprint × Nat))
    (records : List ImageRecord) :
    (processStream T acc records).1.length = records.length := by
  induction records generalizing acc with
  | nil => simp [processStream]
  | cons x xs ih =>
    cases x with
    | ok ident pixels => simp [processStream, ih]
    | failed ident reason => simp [processStream, ih]

/-- Evaluation of the whole run on three uniform images: every uniform
image hashes to the all-ones fingerprint, so the second and third images
are both within distance 0 of the first and the accepted set keeps a
single member. -/
theorem uniformRun (c₁ c₂ c₃ : Nat) :
    processStream 5 []
        [ImageRecord.ok 1 (List.replicate 64 c₁),
         ImageRecord.ok 2 (List.replicate 64 c₂),
         ImageRecord.ok 3 (List.replicate 64 c₃)]
      = ([Verdict.unique, Verdict.duplicateOf 1, Verdict.duplicateOf 1],
         [(List.replicate 64 1, 1)]) := by
  have h₁ := average_hash_replicate 64 c₁ (by norm_num)
  have h₂ := average_hash_replicate 64 c₂ (by norm_num)
  have h₃ := average_hash_replicate 64 c₃ (by norm_num)
  have hd := hamming_distance_self (List.replicate 64 1)
  simp only [processStream, classify, firstMatch, h₁, h₂, h₃, hd]
  norm_num

/- ### Claims -/

/-- C1: the classifier scans the accepted set in insertion order; at the
first member within the threshold it returns a duplicate verdict carrying
that member's representative identifier and leaves the set unchanged,
independently of every later member (the tail `post` is arbitrary and does
not influence the result); if no member is within the threshold it appends
the fingerprint with the new representative identifier and returns the
unique verdict. -/
theorem c1_first_match_classifier (T : Nat) (fp : Fingerprint) (newId : Nat) :
    (∀ (pre post : List (Fingerprint × Nat)) (m : Fingerprint × Nat),
        (∀ p ∈ pre, T < hamming_distance fp p.1) →
        hamming_distance fp m.1 ≤ T →
        classify T (pre ++ m :: post) fp newId
          = (Verdict.duplicateOf m.2, pre ++ m :: post))
    ∧ (∀ accepted : List (Fingerprint × Nat),
        (∀ p ∈ accepted, T < hamming_distance fp p.1) →
        classify T accepted fp newId
          = (Verdict.unique, accepted ++ [(fp, newId)])) := by
  constructor
  · intro pre post m hpre hm
    have h := firstMatch_first_hit T fp pre post m hpre hm
    simp [classify, h]
  · intro accepted hall
    have h := (firstMatch_eq_none_iff T fp accepted).mpr hall
    simp [classify, h]

theorem c1_witness :
    classify 5 [(List.replicate 8 1, 4), ([0, 0, 0, 0, 0, 0, 0, 1], 7)]
        (List.replicate 8 0) 9
      = (Verdict.duplicateOf 7,
         [(List.replicate 8 1, 4), ([0, 0, 0, 0, 0, 0, 0, 1], 7)])
    ∧ classify 5 [(List.replicate 8 1, 4)] (List.replicate 8 0) 9
      = (Verdict.unique, [(List.replicate 8 1, 4), (List.replicate 8 0, 9)]) :=
  ⟨by
    have h := (c1_first_match_classifier 5 (List.replicate 8 0) 9).1
      [(List.replicate 8 1, 4)] [] ([0, 0, 0, 0, 0, 0, 0, 1], 7)
      (by decide) (by decide)
    simpa using h,
   by
    have h := (c1_first_match_classifier 5 (List.replicate 8 0) 9).2
      [(List.replicate 8 1, 4)] (by decide)
    simpa using h⟩

/-- C2 counterexample: three fingerprints with distance(A,B) = 4 ≤ 5,
distance(B,C) = 4 ≤ 5, distance(A,C) = 8 > 5.  Processing A,B,C does not
classify both B and C as duplicates of A: C is within the threshold of no
accepted member (B was never admitted), so C is classified unique. -/
theorem c2_counterexample :
    hamming_distance (List.replicate 8 0) [1, 1, 1, 1, 0, 0, 0, 0] ≤ 5
    ∧ hamming_distance [1, 1, 1, 1, 0, 0, 0, 0] (List.replicate 8 1) ≤ 5
    ∧ 5 < hamming_distance (List.replicate 8 0) (List.replicate 8 1)
    ∧ (classifyAll 5 []
         [(1, List.replicate 8 0), (2, [1, 1, 1, 1, 0, 0, 0, 0]),
          (3, List.replicate 8 1)]).1
        = [Verdict.unique, Verdict.duplicateOf 1, Verdict.unique]
    ∧ (classifyAll 5 []
         [(1, List.replicate 8 0), (2, [1, 1, 1, 1, 0, 0, 0, 0]),
          (3, List.replicate 8 1)]).1
        ≠ [Verdict.unique, Verdict.duplicateOf 1, Verdict.duplicateOf 1] := by
  decide

/-- C2 (amended): for fingerprints a, b, c with distance(a,b) ≤ T,
distance(b,c) ≤ T and distance(a,c) > T, order a,b,c classifies b as
Duplicate-of(a) and c as Unique, while order c,b,a classifies b as
Duplicate-of(c) and a as Unique: only the middle image's representative
depends on the order, because a rejected duplicate is never admitted to the
accepted set and hence never attracts later images. -/
theorem c2_order_dependence (T : Nat) (a b c : Fingerprint) (ia ib ic : Nat)
    (hab : hamming_distance a b ≤ T) (hbc : hamming_distance b c ≤ T)
    (hac : T < hamming_distance a c) :
    (classifyAll T [] [(ia, a), (ib, b), (ic, c)]).1
        = [Verdict.unique, Verdict.duplicateOf ia, Verdict.unique]
    ∧ (classifyAll T [] [(ic, c), (ib, b), (ia, a)]).1
        = [Verdict.unique, Verdict.duplicateOf ic, Verdict.unique] := by
  have hba : hamming_distance b a ≤ T := by
    rw [hamming_distance_comm]; exact hab
  have hca : ¬ hamming_distance c a ≤ T := by
    rw [hamming_distance_comm]; omega
  have hac' : ¬ hamming_distance a c ≤ T := by omega
  constructor
  · have s1 : classify T [] a ia = (Verdict.unique, [(a, ia)]) := by
      simp [classify, firstMatch]
    have s2 : classify T [(a, ia)] b ib = (Verdict.duplicateOf ia, [(a, ia)]) := by
      simp only [classify, firstMatch, if_pos hba]
    have s3 : classify T [(a, ia)] c ic
        = (Verdict.unique, [(a, ia), (c, ic)]) := by
      simp only [classify, firstMatch, if_neg hca]
      rfl
    simp only [classifyAll, s1, s2, s3]
  · have s1 : classify T [] c ic = (Verdict.unique, [(c, ic)]) := by
      simp [classify, firstMatch]
    have s2 : classify T [(c, ic)] b ib = (Verdict.duplicateOf ic, [(c, ic)]) := by
      simp only [classify, firstMatch, if_pos hbc]
    have s3 : classify T [(c, ic)] a ia
        = (Verdict.unique, [(c, ic), (a, ia)]) := by
      simp only [classify, firstMatch, if_neg hac']
      rfl
    simp only [classifyAll, s1, s2, s3]

theorem c2_witness :
    (classifyAll 5 []
       [(1, List.replicate 8 0), (2, [1, 1, 1, 1, 0, 0, 0, 0]),
        (3, List.replicate 8 1)]).1
      = [Verdict.unique, Verdict.duplicateOf 1, Verdict.unique]
    ∧ (classifyAll 5 []
       [(3, List.replicate 8 1), (2, [1, 1, 1, 1, 0, 0, 0, 0]),
        (1, List.replicate 8 0)]).1
      = [Verdict.unique, Verdict.duplicateOf 3, Verdict.unique] :=
  c2_order_dependence 5 (List.replicate 8 0) [1, 1, 1, 1, 0, 0, 0, 0]
    (List.replicate 8 1) 1 2 3 (by decide) (by decide) (by decide)

/-- C3 counterexample: called on fingerprints of lengths 1 and 3, the
distance function does not fail: Python's zip silently truncates to the
shorter operand, so the call returns the value 0 — the distance of the
common one-position prefix — rather than raising a length-mismatch error. -/
theorem c3_counterexample :
    hamming_distance [0] [0, 1, 1] = 0
    ∧ hamming_distance [0] [0, 1, 1] = hamming_distance [0] [0] := by
  decide

/-- C3 (amended): the distance function is total rather than failing on a
length mismatch: the longer fingerprint is silently truncated, so the
result on fingerprints of different lengths is the Hamming distance of the
common prefix and the trailing positions are ignored. -/
theorem c3_truncation (a b extra : Fingerprint) (h : a.length ≤ b.length) :
    hamming_distance a (b ++ extra) = hamming_distance a b :=
  hamming_distance_append_right a b extra h

theorem c3_witness :
    hamming_distance [0, 1] ([1, 1] ++ [0, 0, 1]) = hamming_distance [0, 1] [1, 1] :=
  c3_truncation [0, 1] [1, 1] [0, 0, 1] (by decide)

/-- C4: on a decoded image, i.e. a grayscale resample of hash_size² pixels,
the fingerprint has exactly hash_size² bits, and the bit at position i
holding pixel value p is 1 exactly when p is at least the exact arithmetic
mean of all pixels, else 0 (stated multiplicatively: sum ≤ p·hash_size²,
which for a positive pixel count is equivalent to sum/hash_size² ≤ p by
`mean_le_pixel_iff`). -/
theorem c4_fingerprint_bits (n : Nat) (pixels : List Nat)
    (hn : 0 < n) (hlen : pixels.length = n * n) :
    (average_hash pixels).length = n * n
    ∧ ∀ i p, pixels.get? i = some p →
        (average_hash pixels).get? i
          = some (if pixels.sum ≤ p * (n * n) then 1 else 0) := by
  constructor
  · rw [average_hash_length, hlen]
  · intro i p hip
    have hL : 0 < pixels.length := by
      rw [hlen]; exact Nat.mul_pos hn hn
    have hcond := mean_le_pixel_iff pixels.sum pixels.length p hL
    unfold average_hash
    rw [List.get?_map, hip, Option.map_some']
    congr 1
    rw [if_congr hcond rfl rfl, hlen]

theorem c4_witness :
    (average_hash [10, 20, 30, 40]).length = 2 * 2
    ∧ ∀ i p, ([10, 20, 30, 40] : List Nat).get? i = some p →
        (average_hash [10, 20, 30, 40]).get? i
          = some (if ([10, 20, 30, 40] : List Nat).sum ≤ p * (2 * 2) then 1 else 0) :=
  c4_fingerprint_bits 2 [10, 20, 30, 40] (by decide) (by decide)

/-- C5: for equal-length fingerprints the distance equals the number of
positions at which the fingerprints differ, is symmetric, vanishes exactly
on equal fingerprints, and is bounded by the common length. -/
theorem c5_distance_properties (a b : Fingerprint) (h : a.length = b.length) :
    hamming_distance a b
        = (List.range a.length).countP (fun i => a.get? i != b.get? i)
    ∧ hamming_distance a b = hamming_distance b a
    ∧ (hamming_distance a b = 0 ↔ a = b)
    ∧ hamming_distance a b ≤ a.length :=
  ⟨hamming_distance_count_positions a b h, hamming_distance_comm a b,
   hamming_distance_eq_zero_iff a b h, hamming_distance_le_length a b⟩

theorem c5_witness :
    hamming_distance [0, 1, 1] [1, 1, 0]
        = (List.range ([0, 1, 1] : Fingerprint).length).countP
            (fun i => ([0, 1, 1] : Fingerprint).get? i
              != ([1, 1, 0] : Fingerprint).get? i)
    ∧ hamming_distance [0, 1, 1] [1, 1, 0] = hamming_distance [1, 1, 0] [0, 1, 1]
    ∧ (hamming_distance [0, 1, 1] [1, 1, 0] = 0
        ↔ ([0, 1, 1] : Fingerprint) = [1, 1, 0])
    ∧ hamming_distance [0, 1, 1] [1, 1, 0] ≤ ([0, 1, 1] : Fingerprint).length :=
  c5_distance_properties [0, 1, 1] [1, 1, 0] (by decide)

/-- C6: from any accepted set whose members are pairwise farther apart than
the threshold (in particular the empty set at the start of a run),
processing any stream only ever appends to the accepted set — never removes
or reorders — and the resulting set again has every pair of distinct
members at distance above the threshold.  Because the state reached after
any prefix of the stream is itself such an accepted set, this covers the
state after every classification step. -/
theorem c6_accepted_set_invariant (T : Nat) (records : List ImageRecord)
    (accepted : List (Fingerprint × Nat))
    (hinv : accepted.Pairwise (fun x y => T < hamming_distance x.1 y.1)) :
    (∃ t, (processStream T accepted records).2 = accepted ++ t)
    ∧ (processStream T accepted records).2.Pairwise
        (fun x y => T < hamming_distance x.1 y.1) := by
  induction records generalizing accepted with
  | nil =>
    exact ⟨⟨[], by simp [processStream]⟩, by simpa [processStream] using hinv⟩
  | cons x xs ih =>
    cases x with
    | failed ident reason =>
      simpa [processStream] using ih accepted hinv
    | ok ident pixels =>
      cases hfm : firstMatch T (average_hash pixels) accepted with
      | some rep =>
        have hcl : classify T accepted (average_hash pixels) ident
            = (Verdict.duplicateOf rep, accepted) := by
          simp [classify, hfm]
        simp only [processStream, hcl]
        simpa using ih accepted hinv
      | none =>
        have hfar := (firstMatch_eq_none_iff T (average_hash pixels) accepted).mp hfm
        have hinv' : (accepted ++ [(average_hash pixels, ident)]).Pairwise
            (fun x y => T < hamming_distance x.1 y.1) := by
          rw [List.pairwise_append]
          refine ⟨hinv, List.pairwise_singleton _ _, ?_⟩
          intro m hm y hy
          rw [List.mem_singleton] at hy
          rw [hy]
          show T < hamming_distance m.1 (average_hash pixels)
          rw [hamming_distance_comm]
          exact hfar m hm
        have hcl : classify T accepted (average_hash pixels) ident
            = (Verdict.unique, accepted ++ [(average_hash pixels, ident)]) := by
          simp [classify, hfm]
        obtain ⟨⟨t, ht⟩, hp⟩ := ih (accepted ++ [(average_hash pixels, ident)]) hinv'
        refine ⟨⟨(average_hash pixels, ident) :: t, ?_⟩, ?_⟩
        · simp only [processStream, hcl]
          simpa [List.append_assoc] using ht
        · simp only [processStream, hcl]
          simpa using hp

theorem c6_witness :
    (∃ t, (processStream 5 [] [ImageRecord.ok 1 (List.replicate 4 7)]).2 = [] ++ t)
    ∧ (processStream 5 [] [ImageRecord.ok 1 (List.replicate 4 7)]).2.Pairwise
        (fun x y => 5 < hamming_distance x.1 y.1) :=
  c6_accepted_set_invariant 5 [ImageRecord.ok 1 (List.replicate 4 7)] []
    List.Pairwise.nil

/-- C7 counterexample: the end-to-end batch of the claim, with decoding and
Lanczos resampling modelled per the external-collaborator boundary: the
grayscale resample of a uniform image is uniform (pure blue ≈ 29 and pure
red ≈ 76 under the ITU-R 601 luma transform of mode L, and JPEG re-encoding
of a uniform image decodes to a uniform image).  The run classifies the red
square as Duplicate-of(img1), not Unique, and the final accepted set has
one member, not two: every uniform image hashes to the all-ones
fingerprint, so the red square is at distance 0 from the blue one. -/
theorem c7_counterexample :
    (processStream 5 []
        [ImageRecord.ok 1 (List.replicate 64 29),
         ImageRecord.ok 2 (List.replicate 64 29),
         ImageRecord.ok 3 (List.replicate 64 76)]).1
      = [Verdict.unique, Verdict.duplicateOf 1, Verdict.duplicateOf 1]
    ∧ (processStream 5 []
        [ImageRecord.ok 1 (List.replicate 64 29),
         ImageRecord.ok 2 (List.replicate 64 29),
         ImageRecord.ok 3 (List.replicate 64 76)]).2.length = 1
    ∧ (processStream 5 []
        [ImageRecord.ok 1 (List.replicate 64 29),
         ImageRecord.ok 2 (List.replicate 64 29),
         ImageRecord.ok 3 (List.replicate 64 76)]).1
      ≠ [Verdict.unique, Verdict.duplicateOf 1, Verdict.unique] :=
  ⟨by rw [uniformRun], by rw [uniformRun]; rfl, by rw [uniformRun]; decide⟩

/-- C7 (amended): for the batch [img1 uniform blue square, img2 the same
image re-saved, img3 uniform red square] at threshold 5 the verdicts are
img1 = Unique, img2 = Duplicate-of(img1) and img3 = Duplicate-of(img1), and
the final accepted set has exactly one member — stated for arbitrary
uniform pixel values, hence for uniform squares of any two colors. -/
theorem c7_uniform_batch (c₁ c₂ c₃ : Nat) :
    (processStream 5 []
        [ImageRecord.ok 1 (List.replicate 64 c₁),
         ImageRecord.ok 2 (List.replicate 64 c₂),
         ImageRecord.ok 3 (List.replicate 64 c₃)]).1
      = [Verdict.unique, Verdict.duplicateOf 1, Verdict.duplicateOf 1]
    ∧ (processStream 5 []
        [ImageRecord.ok 1 (List.replicate 64 c₁),
         ImageRecord.ok 2 (List.replicate 64 c₂),
         ImageRecord.ok 3 (List.replicate 64 c₃)]).2.length = 1 :=
  ⟨by rw [uniformRun], by rw [uniformRun]; rfl⟩

/-- C8: the pipeline output is a deterministic function of the ordered
input stream and the threshold: two runs on equal configurations and equal
streams produce identical verdict sequences. -/
theorem c8_deterministic (T T' : Nat) (records records' : List ImageRecord)
    (hT : T = T') (hrec : records = records') :
    (processStream T [] records).1 = (processStream T' [] records').1 := by
  rw [hT, hrec]

theorem c8_witness :
    (processStream 5 []
        [ImageRecord.ok 1 [0, 0, 0, 0], ImageRecord.failed 2 "corrupt"]).1
      = (processStream 5 []
        [ImageRecord.ok 1 [0, 0, 0, 0], ImageRecord.failed 2 "corrupt"]).1 :=
  c8_deterministic 5 5
    [ImageRecord.ok 1 [0, 0, 0, 0], ImageRecord.failed 2 "corrupt"]
    [ImageRecord.ok 1 [0, 0, 0, 0], ImageRecord.failed 2 "corrupt"] rfl rfl

/-- C9: a per-item failure (corrupt, unreadable or oversize image) is
local: the failing item receives the Skipped verdict, the accepted set
evolves exactly as if the item had not appeared — in particular the item is
never added to it — and every subsequent item is classified identically.
The verdict sequence with the failure inserted is the sequence without it
with one Skipped verdict spliced in, and the final accepted set is the
same. -/
theorem c9_skip_is_local (T : Nat) (accepted : List (Fingerprint × Nat))
    (xs ys : List ImageRecord) (ident : Nat) (reason : String) :
    (processStream T accepted (xs ++ ImageRecord.failed ident reason :: ys)).1
        = (processStream T accepted xs).1
            ++ Verdict.skipped reason
              :: (processStream T (processStream T accepted xs).2 ys).1
    ∧ (processStream T accepted (xs ++ ys)).1
        = (processStream T accepted xs).1
            ++ (processStream T (processStream T accepted xs).2 ys).1
    ∧ (processStream T accepted (xs ++ ImageRecord.failed ident reason :: ys)).2
        = (processStream T accepted (xs ++ ys)).2 := by
  refine ⟨?_, ?_, ?_⟩
  · rw [processStream_append T accepted xs (ImageRecord.failed ident reason :: ys)]
    simp [processStream]
  · rw [processStream_append T accepted xs ys]
  · rw [processStream_append T accepted xs (ImageRecord.failed ident reason :: ys),
      processStream_append T accepted xs ys]
    simp [processStream]

/-- C10: any image whose grayscale resample is uniform hashes to the
all-ones fingerprint — every pixel equals the mean, so every bit is 1 — and
consequently two uniform images on the same grid have fingerprint distance
0 regardless of their pixel values. -/
theorem c10_uniform_all_ones (n c c' : Nat) (hn : 0 < n) :
    average_hash (List.replicate n c) = List.replicate n 1
    ∧ hamming_distance (average_hash (List.replicate n c))
        (average_hash (List.replicate n c')) = 0 := by
  refine ⟨average_hash_replicate n c hn, ?_⟩
  rw [average_hash_replicate n c hn, average_hash_replicate n c' hn]
  exact hamming_distance_self _

theorem c10_witness :
    average_hash (List.replicate 64 29) = List.replicate 64 1
    ∧ hamming_distance (average_hash (List.replicate 64 29))
        (average_hash (List.replicate 64 76)) = 0 :=
  c10_uniform_all_ones 64 29 76 (by decide)

end PerceptualDedup
